import Mathlib

/-!
Verification development for a manga CBZ toolset consisting of three
command-line programs: a chapter-directory combiner
(`chapter_combiner_external.py`), a remote downloader (`downloader.py`)
and an archive splitter (`splitter.py`).

The relevant program logic is shallowly embedded here:

* strings are Lean `String`s / `List Char`; Python string comparison
  (code-point lexicographic) is modelled by `charsLt` / `charsLe`;
* Python's stable `sorted` is modelled by `List.insertionSort`
  (also a stable sort) with the corresponding comparison relation;
* Python `float` chapter keys are modelled as rationals built with
  `mkRat` (all keys produced by the programs are decimal fractions);
* Python `re` searching for the five fixed patterns of
  `extract_chapter_number` is modelled by maximal-munch matchers that
  are run at every start position from the left (the character classes
  adjacent to each greedy quantifier are disjoint in all five patterns,
  so maximal munch coincides with the backtracking semantics); the
  models cover the ASCII fragments of `\d` and `\s`;
* the filesystem (zip archives, directory listings, a temporary
  directory that files are copied into, possibly overwriting) is
  modelled with explicit lists, and exceptions with `Except`.
-/

/-! ### Python string comparison and digits -/

/-- ASCII fragment of Python's `\d` character class. -/
def isDigitCh (c : Char) : Bool :=
  48 ≤ c.toNat && c.toNat ≤ 57

/-- ASCII fragment of Python's `\s` character class. -/
def isSpaceCh (c : Char) : Bool :=
  c.toNat = 32 || c.toNat = 9 || c.toNat = 10 || c.toNat = 13 || c.toNat = 11 || c.toNat = 12

/-- Python string `<`: code-point lexicographic comparison. -/
def charsLt : List Char → List Char → Bool
  | [], [] => false
  | [], _ :: _ => true
  | _ :: _, [] => false
  | a :: as, b :: bs => a.toNat < b.toNat || (a.toNat = b.toNat && charsLt as bs)

/-- Python string `<=`: code-point lexicographic comparison. -/
def charsLe : List Char → List Char → Bool
  | [], _ => true
  | _ :: _, [] => false
  | a :: as, b :: bs => a.toNat < b.toNat || (a.toNat = b.toNat && charsLe as bs)

/-- The order Python's `sorted` uses on strings. -/
def pyStrLe (a b : String) : Prop := charsLe a.data b.data = true

instance : DecidableRel pyStrLe := fun a b => by
  unfold pyStrLe; infer_instance

/-- Longest digit run at the front (the greedy `\d*` / `\d+`). -/
def takeDigits : List Char → List Char × List Char
  | [] => ([], [])
  | c :: cs =>
    if isDigitCh c then
      let p := takeDigits cs
      (c :: p.1, p.2)
    else ([], c :: cs)

/-- Skip the longest whitespace run at the front (the greedy `\s*`). -/
def dropSpaces : List Char → List Char
  | [] => []
  | c :: cs => if isSpaceCh c then dropSpaces cs else c :: cs

/-- Decimal value of a digit run, as `int()` computes it. -/
def digitsToNat (ds : List Char) : ℕ :=
  ds.foldl (fun a c => 10 * a + (c.toNat - 48)) 0

/-! ### The five patterns of `extract_chapter_number`
(`chapter_combiner_external.py`, lines 54-91). -/

/-- Value of the capture of `(\d+\.?\d*)` parsed by Python `float`:
integer digits `intDs`, fraction digits `fracDs`. -/
def numVal (intDs fracDs : List Char) : ℚ :=
  mkRat (digitsToNat (intDs ++ fracDs)) (10 ^ fracDs.length)

/-- Match `(\d+\.?\d*)` at the start, returning its `float` value and
the rest of the input. -/
def chapNum (cs : List Char) : Option (ℚ × List Char) :=
  let p := takeDigits cs
  if p.1.isEmpty then none
  else
    match p.2 with
    | '.' :: r2 =>
      let q := takeDigits r2
      some (numVal p.1 q.1, q.2)
    | r1 => some (numVal p.1 [], r1)

/-- Pattern 1 anchored at the current position: `[Cc]h\.\s*(\d+\.?\d*)`. -/
def matchCh (cs : List Char) : Option ℚ :=
  match cs with
  | c :: h :: d :: rest =>
    if (c == 'C' || c == 'c') && h == 'h' && d == '.' then
      (chapNum (dropSpaces rest)).map Prod.fst
    else none
  | _ => none

/-- Pattern 2 anchored at the current position: `[Cc]hapter\s+(\d+\.?\d*)`. -/
def matchChapter (cs : List Char) : Option ℚ :=
  match cs with
  | c :: h :: a :: p :: t :: e :: r :: s :: rest =>
    if (c == 'C' || c == 'c') && h == 'h' && a == 'a' && p == 'p' && t == 't'
        && e == 'e' && r == 'r' && isSpaceCh s then
      (chapNum (dropSpaces rest)).map Prod.fst
    else none
  | _ => none

/-- Pattern 3 anchored at the current position:
`[Vv]ol\.\d+\s*[Cc]h\.\s*(\d+\.?\d*)`; its tail is exactly pattern 1. -/
def matchVolCh (cs : List Char) : Option ℚ :=
  match cs with
  | v :: o :: l :: d :: rest =>
    if (v == 'V' || v == 'v') && o == 'o' && l == 'l' && d == '.' then
      let p := takeDigits rest
      if p.1.isEmpty then none else matchCh (dropSpaces p.2)
    else none
  | _ => none

/-- Decimal digit count of `n` (1 for 0). -/
def decLen (n : ℕ) : ℕ :=
  Nat.toDigits 10 n |>.length

/-- `float(f"{vol}{fl:03d}")` from pattern 4's action: the decimal
digits of `vol` followed by `fl` zero-padded to width at least 3. -/
def floorKey (vol fl : ℕ) : ℚ :=
  ((vol * 10 ^ (max 3 (decLen fl)) + fl : ℕ) : ℚ)

/-- Pattern 4 anchored at the current position:
`[Vv]ol\.\s*(\d+)\s*[Ff]loor\s+(\d+)`. -/
def matchVolFloor (cs : List Char) : Option ℚ :=
  match cs with
  | v :: o :: l :: d :: rest =>
    if (v == 'V' || v == 'v') && o == 'o' && l == 'l' && d == '.' then
      let p := takeDigits (dropSpaces rest)
      if p.1.isEmpty then none
      else
        match dropSpaces p.2 with
        | f :: l2 :: o2 :: o3 :: r2 :: s :: rest2 =>
          if (f == 'F' || f == 'f') && l2 == 'l' && o2 == 'o' && o3 == 'o'
              && r2 == 'r' && isSpaceCh s then
            let q := takeDigits (dropSpaces rest2)
            if q.1.isEmpty then none
            else some (floorKey (digitsToNat p.1) (digitsToNat q.1))
          else none
        | _ => none
    else none
  | _ => none

/-- Pattern 5 anchored at the current position: `[Vv]ol\.\s*(\d+)\s*[Ee]xtra`,
whose action returns `float(f"{vol + 1}000")`. -/
def matchVolExtra (cs : List Char) : Option ℚ :=
  match cs with
  | v :: o :: l :: d :: rest =>
    if (v == 'V' || v == 'v') && o == 'o' && l == 'l' && d == '.' then
      let p := takeDigits (dropSpaces rest)
      if p.1.isEmpty then none
      else
        match dropSpaces p.2 with
        | e :: x :: t :: r2 :: a :: _ =>
          if (e == 'E' || e == 'e') && x == 'x' && t == 't' && r2 == 'r' && a == 'a' then
            some (((digitsToNat p.1 + 1) * 1000 : ℕ) : ℚ)
          else none
        | _ => none
    else none
  | _ => none

/-- `re.search`: run an anchored matcher at each start position from the
left, first success wins. -/
def searchFirst (m : List Char → Option ℚ) : List Char → Option ℚ
  | [] => m []
  | c :: cs =>
    match m (c :: cs) with
    | some v => some v
    | none => searchFirst m cs

/-- `extract_chapter_number` (`chapter_combiner_external.py`, lines
54-91): try patterns 1-5 in order on the whole string; first searching
pattern wins; `None` when none match. -/
def extract_chapter_number (s : String) : Option ℚ :=
  match searchFirst matchCh s.data with
  | some v => some v
  | none =>
    match searchFirst matchChapter s.data with
    | some v => some v
    | none =>
      match searchFirst matchVolCh s.data with
      | some v => some v
      | none =>
        match searchFirst matchVolFloor s.data with
        | some v => some v
        | none => searchFirst matchVolExtra s.data

/-- The same extractor with pattern 3 deleted (rules 1, 2, 4, 5 only). -/
def extractWithoutRule3 (s : String) : Option ℚ :=
  match searchFirst matchCh s.data with
  | some v => some v
  | none =>
    match searchFirst matchChapter s.data with
    | some v => some v
    | none =>
      match searchFirst matchVolFloor s.data with
      | some v => some v
      | none => searchFirst matchVolExtra s.data

/-! ### Order properties of the Python string comparison -/

theorem charNat_inj {a b : Char} (h : a.toNat = b.toNat) : a = b :=
  Char.ext (UInt32.ext h)

theorem charsLe_refl (a : List Char) : charsLe a a = true := by
  induction a with
  | nil => rfl
  | cons x xs ih => simp [charsLe, ih]

theorem charsLe_trans {a b c : List Char} (h1 : charsLe a b = true)
    (h2 : charsLe b c = true) : charsLe a c = true := by
  induction a generalizing b c with
  | nil => simp [charsLe]
  | cons x xs ih =>
    cases b with
    | nil => simp [charsLe] at h1
    | cons y ys =>
      cases c with
      | nil => simp [charsLe] at h2
      | cons z zs =>
        simp only [charsLe, Bool.or_eq_true, Bool.and_eq_true,
          decide_eq_true_eq] at h1 h2 ⊢
        rcases h1 with h1 | ⟨e1, r1⟩ <;> rcases h2 with h2 | ⟨e2, r2⟩
        · exact Or.inl (h1.trans h2)
        · exact Or.inl (e2 ▸ h1)
        · exact Or.inl (e1 ▸ h2)
        · exact Or.inr ⟨e1.trans e2, ih r1 r2⟩

theorem charsLe_total (a b : List Char) :
    charsLe a b = true ∨ charsLe b a = true := by
  induction a generalizing b with
  | nil => exact Or.inl rfl
  | cons x xs ih =>
    cases b with
    | nil => exact Or.inr rfl
    | cons y ys =>
      simp only [charsLe, Bool.or_eq_true, Bool.and_eq_true, decide_eq_true_eq]
      rcases Nat.lt_trichotomy x.toNat y.toNat with h | h | h
      · exact Or.inl (Or.inl h)
      · rcases ih ys with h' | h'
        · exact Or.inl (Or.inr ⟨h, h'⟩)
        · exact Or.inr (Or.inr ⟨h.symm, h'⟩)
      · exact Or.inr (Or.inl h)

theorem charsLe_antisymm {a b : List Char} (h1 : charsLe a b = true)
    (h2 : charsLe b a = true) : a = b := by
  induction a generalizing b with
  | nil =>
    cases b with
    | nil => rfl
    | cons y ys => simp [charsLe] at h2
  | cons x xs ih =>
    cases b with
    | nil => simp [charsLe] at h1
    | cons y ys =>
      simp only [charsLe, Bool.or_eq_true, Bool.and_eq_true,
        decide_eq_true_eq] at h1 h2
      rcases h1 with h1 | ⟨e1, r1⟩
      · rcases h2 with h2 | ⟨e2, r2⟩
        · omega
        · omega
      · rcases h2 with h2 | ⟨e2, r2⟩
        · omega
        · exact by rw [charNat_inj e1, ih r1 r2]

instance : IsTotal String pyStrLe :=
  ⟨fun a b => charsLe_total a.data b.data⟩

instance : IsTrans String pyStrLe :=
  ⟨fun _ _ _ h1 h2 => charsLe_trans h1 h2⟩

instance : IsRefl String pyStrLe :=
  ⟨fun a => charsLe_refl a.data⟩

instance : IsAntisymm String pyStrLe :=
  ⟨fun a b h1 h2 => by
    cases a; cases b
    exact congrArg String.mk (charsLe_antisymm h1 h2)⟩

/-! ### Structure of the searches: rule 3 subsumed by rule 1 -/

theorem dropSpaces_suffix (l : List Char) : dropSpaces l <:+ l := by
  induction l with
  | nil => exact List.suffix_rfl
  | cons c cs ih =>
    by_cases h : isSpaceCh c = true
    · simpa [dropSpaces, h] using ih.trans (List.suffix_cons c cs)
    · simp [dropSpaces, h]

theorem takeDigits_suffix (l : List Char) : (takeDigits l).2 <:+ l := by
  induction l with
  | nil => exact List.suffix_rfl
  | cons c cs ih =>
    by_cases h : isDigitCh c = true
    · simpa [takeDigits, h] using ih.trans (List.suffix_cons c cs)
    · simp [takeDigits, h]

theorem searchFirst_eq_some {m : List Char → Option ℚ} {l : List Char} {v : ℚ}
    (h : searchFirst m l = some v) : ∃ t, t <:+ l ∧ m t = some v := by
  induction l with
  | nil => exact ⟨[], List.suffix_rfl, h⟩
  | cons c cs ih =>
    rw [searchFirst] at h
    cases hm : m (c :: cs) with
    | some w => rw [hm] at h; exact ⟨c :: cs, List.suffix_rfl, hm.trans h⟩
    | none =>
      rw [hm] at h
      obtain ⟨t, ht, hmt⟩ := ih h
      exact ⟨t, ht.trans (List.suffix_cons c cs), hmt⟩

theorem searchFirst_eq_none {m : List Char → Option ℚ} {l : List Char}
    (h : searchFirst m l = none) : ∀ t, t <:+ l → m t = none := by
  induction l with
  | nil =>
    intro t ht
    rw [List.suffix_nil.mp ht]
    exact h
  | cons c cs ih =>
    rw [searchFirst] at h
    cases hm : m (c :: cs) with
    | some w => rw [hm] at h; cases h
    | none =>
      rw [hm] at h
      intro t ht
      rcases List.suffix_cons_iff.mp ht with rfl | ht'
      · exact hm
      · exact ih h t ht'

theorem matchVolCh_imp_matchCh {cs : List Char} {v : ℚ}
    (h : matchVolCh cs = some v) : ∃ t, t <:+ cs ∧ matchCh t = some v := by
  cases cs with
  | nil => cases h
  | cons a t1 =>
  cases t1 with
  | nil => cases h
  | cons o t2 =>
  cases t2 with
  | nil => cases h
  | cons l t3 =>
  cases t3 with
  | nil => cases h
  | cons d rest =>
    rw [matchVolCh] at h
    by_cases hc : ((a == 'V' || a == 'v') && o == 'o' && l == 'l' && d == '.') = true
    · rw [if_pos hc] at h
      by_cases he : (takeDigits rest).1.isEmpty = true
      · rw [if_pos he] at h; cases h
      · rw [if_neg he] at h
        refine ⟨dropSpaces (takeDigits rest).2, ?_, h⟩
        exact ((dropSpaces_suffix _).trans (takeDigits_suffix rest)).trans
          ⟨[a, o, l, d], rfl⟩
    · rw [if_neg hc] at h; cases h

/-- C10: the extractor with rule 3 (`Vol.N Ch.M`) removed computes the
same function as the full extractor — every string rule 3 matches
contains a `[Cc]h\.\s*\d...` occurrence, which rule 1 already catches,
so the rule-3 branch is never reached with a match. -/
theorem C10_rule3_unreachable (s : String) :
    extractWithoutRule3 s = extract_chapter_number s := by
  unfold extract_chapter_number extractWithoutRule3
  cases h1 : searchFirst matchCh s.data with
  | some v => rfl
  | none =>
    cases h2 : searchFirst matchChapter s.data with
    | some v => rfl
    | none =>
      have h3 : searchFirst matchVolCh s.data = none := by
        cases h3 : searchFirst matchVolCh s.data with
        | none => rfl
        | some v =>
          obtain ⟨t, ht, hm⟩ := searchFirst_eq_some h3
          obtain ⟨t', ht', hm'⟩ := matchVolCh_imp_matchCh hm
          have hn := searchFirst_eq_none h1 t' (ht'.trans ht)
          rw [hn] at hm'
          cases hm'
      rw [h3]

/-- C4: the chapter-number extractor is a pure function applying its
five patterns in fixed priority order, first match winning; it returns
the documented values on the documented examples and `none` exactly
when no pattern matches. -/
theorem C4_extractor_examples_and_priority :
    extract_chapter_number "Ch.11" = some 11 ∧
    extract_chapter_number "Chapter 46" = some 46 ∧
    extract_chapter_number "Vol.01 Ch.003" = some 3 ∧
    extract_chapter_number "Vol.5 Floor 41" = some 5041 ∧
    extract_chapter_number "Vol.5 Extra" = some 6000 ∧
    (∀ s : String,
      (∀ v, searchFirst matchCh s.data = some v →
        extract_chapter_number s = some v) ∧
      (searchFirst matchCh s.data = none →
        ∀ v, searchFirst matchChapter s.data = some v →
          extract_chapter_number s = some v) ∧
      (searchFirst matchCh s.data = none →
        searchFirst matchChapter s.data = none →
        ∀ v, searchFirst matchVolCh s.data = some v →
          extract_chapter_number s = some v) ∧
      (searchFirst matchCh s.data = none →
        searchFirst matchChapter s.data = none →
        searchFirst matchVolCh s.data = none →
        ∀ v, searchFirst matchVolFloor s.data = some v →
          extract_chapter_number s = some v) ∧
      (searchFirst matchCh s.data = none →
        searchFirst matchChapter s.data = none →
        searchFirst matchVolCh s.data = none →
        searchFirst matchVolFloor s.data = none →
        ∀ v, searchFirst matchVolExtra s.data = some v →
          extract_chapter_number s = some v) ∧
      (searchFirst matchCh s.data = none →
        searchFirst matchChapter s.data = none →
        searchFirst matchVolCh s.data = none →
        searchFirst matchVolFloor s.data = none →
        searchFirst matchVolExtra s.data = none →
        extract_chapter_number s = none)) := by
  refine ⟨by decide, by decide, by decide, by decide, by decide, fun s => ?_⟩
  refine ⟨?_, ?_, ?_, ?_, ?_, ?_⟩
  · intro v h1
    unfold extract_chapter_number
    rw [h1]
  · intro h1 v h2
    unfold extract_chapter_number
    rw [h1, h2]
  · intro h1 h2 v h3
    unfold extract_chapter_number
    rw [h1, h2, h3]
  · intro h1 h2 h3 v h4
    unfold extract_chapter_number
    rw [h1, h2, h3, h4]
  · intro h1 h2 h3 h4 v h5
    unfold extract_chapter_number
    rw [h1, h2, h3, h4, h5]
  · intro h1 h2 h3 h4 h5
    unfold extract_chapter_number
    rw [h1, h2, h3, h4, h5]

/-- Witness for C4 at a concrete input: on `"Ch.11"` pattern 1 fires
and the extractor returns its value. -/
theorem C4_extractor_examples_and_priority_witness :
    extract_chapter_number "Ch.11" = some 11 :=
  (C4_extractor_examples_and_priority.2.2.2.2.2 "Ch.11").1 11 (by decide)

/-! ### The archive splitter (`splitter.py`)

An archive is modelled as its list of entries, each a name paired with
its uncompressed `file_size`; `cbz.namelist()` followed by per-name
`getinfo` lookups is modelled by carrying each entry's size alongside
its name. -/

/-- The order of `files.sort()` on entries: by name, Python string
comparison. -/
def entryLe (a b : String × ℕ) : Prop := pyStrLe a.1 b.1

instance : DecidableRel entryLe := fun a b =>
  inferInstanceAs (Decidable (pyStrLe a.1 b.1))

instance : IsTotal (String × ℕ) entryLe :=
  ⟨fun a b => charsLe_total a.1.data b.1.data⟩

instance : IsTrans (String × ℕ) entryLe :=
  ⟨fun _ _ _ h1 h2 => charsLe_trans h1 h2⟩

/-- `files.sort()` in `split_cbz` (a stable sort by name). -/
def sortEntries (archive : List (String × ℕ)) : List (String × ℕ) :=
  List.insertionSort entryLe archive

/-- Sum of the uncompressed sizes of a part's entries. -/
def entrySizeSum (part : List (String × ℕ)) : ℕ :=
  (part.map Prod.snd).sum

/-- `get_cbz_size` (`splitter.py`, lines 8-14): total uncompressed size
of all entries. -/
def get_cbz_size (archive : List (String × ℕ)) : ℕ :=
  entrySizeSum archive

/-- The accumulation loop of `split_cbz` (`splitter.py`, lines 73-100):
walk the sorted entries keeping the current part and its size; when the
next entry would push the part over `maxSize` and the part is
non-empty, flush it; after the loop flush the non-empty remainder. -/
def splitLoop (maxSize : ℕ) :
    List (String × ℕ) → List (String × ℕ) → ℕ → List (List (String × ℕ))
  | [], cur, _ => if cur.isEmpty then [] else [cur]
  | e :: rest, cur, curSize =>
    if maxSize < curSize + e.2 ∧ cur ≠ [] then
      cur :: splitLoop maxSize rest [e] e.2
    else
      splitLoop maxSize rest (cur ++ [e]) (curSize + e.2)

/-- `split_cbz` (`splitter.py`, lines 45-102): sort the entries by name,
then split greedily. Each inner list is the entry list of one output
part, in part order. -/
def split_cbz (archive : List (String × ℕ)) (maxSize : ℕ) :
    List (List (String × ℕ)) :=
  splitLoop maxSize (sortEntries archive) [] 0

/-- The splitter's `main` decision (`splitter.py`, lines 126-133): when
the source's total size is at most the ceiling, produce no output files
and report that no splitting was needed (boolean flag). -/
def splitterMain (archive : List (String × ℕ)) (maxSizeBytes : ℕ) :
    List (List (String × ℕ)) × Bool :=
  if get_cbz_size archive ≤ maxSizeBytes then ([], true)
  else (split_cbz archive maxSizeBytes, false)

theorem splitLoop_flatten (maxSize : ℕ) (l : List (String × ℕ)) :
    ∀ cur s, (splitLoop maxSize l cur s).flatten = cur ++ l := by
  induction l with
  | nil =>
    intro cur s
    rw [splitLoop]
    by_cases h : cur.isEmpty
    · rw [if_pos h, List.isEmpty_iff.mp h]; rfl
    · rw [if_neg h]; simp
  | cons e rest ih =>
    intro cur s
    rw [splitLoop]
    by_cases h : maxSize < s + e.2 ∧ cur ≠ []
    · rw [if_pos h]
      simp [ih]
    · rw [if_neg h]
      simp [ih]

theorem splitLoop_parts (maxSize : ℕ) (l : List (String × ℕ)) :
    ∀ cur s, s = entrySizeSum cur →
    (entrySizeSum cur ≤ maxSize ∨ cur.length ≤ 1) →
    ∀ part ∈ splitLoop maxSize l cur s,
      part ≠ [] ∧
        (entrySizeSum part ≤ maxSize ∨ ∃ e, part = [e] ∧ maxSize < e.2) := by
  induction l with
  | nil =>
    intro cur s _ hinv part hp
    rw [splitLoop] at hp
    by_cases h : cur.isEmpty
    · rw [if_pos h] at hp; cases hp
    · rw [if_neg h] at hp
      have hne : cur ≠ [] := fun hc => h (by rw [hc]; rfl)
      rcases List.mem_cons.mp hp with rfl | hp
      · refine ⟨hne, ?_⟩
        rcases hinv with hle | hlen
        · exact Or.inl hle
        · match part, hne, hlen with
          | [e], _, _ =>
            rcases le_or_lt (entrySizeSum [e]) maxSize with h' | h'
            · exact Or.inl h'
            · exact Or.inr ⟨e, rfl, by simpa [entrySizeSum] using h'⟩
      · cases hp
  | cons e rest ih =>
    intro cur s hs hinv part hp
    rw [splitLoop] at hp
    by_cases h : maxSize < s + e.2 ∧ cur ≠ []
    · rw [if_pos h] at hp
      rcases List.mem_cons.mp hp with rfl | hp
      · refine ⟨h.2, ?_⟩
        rcases hinv with hle | hlen
        · exact Or.inl hle
        · match part, h.2, hlen with
          | [e'], _, _ =>
            rcases le_or_lt (entrySizeSum [e']) maxSize with h' | h'
            · exact Or.inl h'
            · exact Or.inr ⟨e', rfl, by simpa [entrySizeSum] using h'⟩
      · exact ih [e] e.2 (by simp [entrySizeSum]) (Or.inr (by simp)) part hp
    · rw [if_neg h] at hp
      rcases Decidable.not_and_iff_or_not.mp h with h' | h'
      · refine ih (cur ++ [e]) (s + e.2) ?_ (Or.inl ?_) part hp
        · simp [entrySizeSum, hs]
        · have : s + e.2 ≤ maxSize := Nat.le_of_not_lt h'
          simpa [entrySizeSum, hs] using this
      · have hc : cur = [] := Decidable.not_not.mp h'
        subst hc
        exact ih [e] (s + e.2) (by simp [entrySizeSum, hs]) (Or.inr (by simp))
          part hp

/-- C1: concatenating the entry lists of the parts `split_cbz` emits,
in part order, yields exactly the source archive's sorted entry list
(no omission, duplication or reordering), and every part is non-empty
and either fits the ceiling or is a single entry that alone exceeds
it. -/
theorem C1_split_preserves_entries_and_bounds
    (archive : List (String × ℕ)) (maxSize : ℕ) (_hpos : 0 < maxSize) :
    (split_cbz archive maxSize).flatten = sortEntries archive ∧
    ∀ part ∈ split_cbz archive maxSize,
      part ≠ [] ∧
        (entrySizeSum part ≤ maxSize ∨ ∃ e, part = [e] ∧ maxSize < e.2) := by
  constructor
  · simpa using splitLoop_flatten maxSize (sortEntries archive) [] 0
  · exact splitLoop_parts maxSize (sortEntries archive) [] 0 (by rfl)
      (Or.inr (by simp))

/-- Witness for C1 at a concrete archive and ceiling. -/
theorem C1_split_preserves_entries_and_bounds_witness :
    0 < 4 ∧
      (split_cbz [("b.jpg", 2), ("a.jpg", 3)] 4).flatten =
        sortEntries [("b.jpg", 2), ("a.jpg", 3)] :=
  ⟨by decide,
    (C1_split_preserves_entries_and_bounds [("b.jpg", 2), ("a.jpg", 3)] 4
      (by decide)).1⟩

/-- C9: when the source archive's total uncompressed size is at most
the configured ceiling, the splitter tool produces zero output files
and reports that no action was taken. -/
theorem C9_under_ceiling_no_output (archive : List (String × ℕ))
    (maxSizeBytes : ℕ) (h : get_cbz_size archive ≤ maxSizeBytes) :
    splitterMain archive maxSizeBytes = ([], true) := by
  unfold splitterMain
  rw [if_pos h]

/-- Witness for C9 at a concrete archive already under the ceiling. -/
theorem C9_under_ceiling_no_output_witness :
    splitterMain [("p1.jpg", 2), ("p2.jpg", 1)] 5 = ([], true) :=
  C9_under_ceiling_no_output [("p1.jpg", 2), ("p2.jpg", 1)] 5 (by decide)

/-! ### Truncation to `int` and zero-padded decimal forms -/

/-- Python `int()` applied to a nonnegative float: truncation, here
`num.toNat / den` (all chapter keys the extractor yields are
nonnegative). -/
def pyInt (q : ℚ) : ℕ := q.num.toNat / q.den

/-- The decimal digit characters. -/
def digitCh (d : ℕ) : Char := Char.ofNat (48 + d)

/-- Decimal digit characters of `n`, most significant first. -/
def decChars (n : ℕ) : List Char := Nat.toDigits 10 n

/-- `f"{n:04d}"`: the decimal digits of `n` zero-padded on the left to
width at least 4 (values of 10000 or more print all their digits). -/
def pad4 (n : ℕ) : List Char :=
  if n < 10000 then
    [digitCh (n / 1000), digitCh (n / 100 % 10), digitCh (n / 10 % 10),
      digitCh (n % 10)]
  else decChars n

/-- `f"{n:03d}"`: the decimal digits of `n` zero-padded on the left to
width at least 3. -/
def pad3 (n : ℕ) : List Char :=
  if n < 1000 then [digitCh (n / 100), digitCh (n / 10 % 10), digitCh (n % 10)]
  else decChars n

theorem digitCh_toNat {d : ℕ} (hd : d < 10) : (digitCh d).toNat = 48 + d := by
  interval_cases d <;> decide

theorem charsLt_irrefl (a : List Char) : charsLt a a = false := by
  induction a with
  | nil => rfl
  | cons x xs ih => simp [charsLt, ih]

theorem charsLt_ne {a b : List Char} (h : charsLt a b = true) : a ≠ b := by
  intro he
  rw [he, charsLt_irrefl] at h
  cases h

theorem pad4_lt {a b : ℕ} (ha : a < 10000) (hb : b < 10000) (hab : a < b) :
    charsLt (pad4 a) (pad4 b) = true := by
  rw [pad4, if_pos ha, pad4, if_pos hb]
  have h3a : a / 1000 < 10 := by omega
  have h3b : b / 1000 < 10 := by omega
  simp only [charsLt, Bool.or_eq_true, Bool.and_eq_true, decide_eq_true_eq,
    digitCh_toNat h3a, digitCh_toNat h3b,
    digitCh_toNat (Nat.mod_lt _ (by norm_num) : a / 100 % 10 < 10),
    digitCh_toNat (Nat.mod_lt _ (by norm_num) : b / 100 % 10 < 10),
    digitCh_toNat (Nat.mod_lt _ (by norm_num) : a / 10 % 10 < 10),
    digitCh_toNat (Nat.mod_lt _ (by norm_num) : b / 10 % 10 < 10),
    digitCh_toNat (Nat.mod_lt _ (by norm_num) : a % 10 < 10),
    digitCh_toNat (Nat.mod_lt _ (by norm_num) : b % 10 < 10)]
  omega

theorem pad3_lt {a b : ℕ} (ha : a < 1000) (hb : b < 1000) (hab : a < b) :
    charsLt (pad3 a) (pad3 b) = true := by
  rw [pad3, if_pos ha, pad3, if_pos hb]
  have h2a : a / 100 < 10 := by omega
  have h2b : b / 100 < 10 := by omega
  simp only [charsLt, Bool.or_eq_true, Bool.and_eq_true, decide_eq_true_eq,
    digitCh_toNat h2a, digitCh_toNat h2b,
    digitCh_toNat (Nat.mod_lt _ (by norm_num) : a / 10 % 10 < 10),
    digitCh_toNat (Nat.mod_lt _ (by norm_num) : b / 10 % 10 < 10),
    digitCh_toNat (Nat.mod_lt _ (by norm_num) : a % 10 < 10),
    digitCh_toNat (Nat.mod_lt _ (by norm_num) : b % 10 < 10)]
  omega

theorem pad4_length {n : ℕ} (h : n < 10000) : (pad4 n).length = 4 := by
  rw [pad4, if_pos h]
  rfl

theorem pad3_length {n : ℕ} (h : n < 1000) : (pad3 n).length = 3 := by
  rw [pad3, if_pos h]
  rfl

theorem pyInt_cast_le {q : ℚ} (hq : 0 ≤ q) : (pyInt q : ℚ) ≤ q := by
  have hden : (0 : ℚ) < (q.den : ℚ) := by
    exact_mod_cast q.den_pos
  have hnum : 0 ≤ q.num := Rat.num_nonneg.mpr hq
  have h1 : pyInt q * q.den ≤ q.num.toNat := Nat.div_mul_le_self _ _
  have h2 : (pyInt q : ℚ) * (q.den : ℚ) ≤ (q.num : ℚ) := by
    rw [show (q.num : ℚ) = (q.num.toNat : ℚ) from by
      exact_mod_cast congrArg (fun z : ℤ => (z : ℚ)) (Int.toNat_of_nonneg hnum).symm]
    exact_mod_cast h1
  have h3 : (pyInt q : ℚ) ≤ (q.num : ℚ) / (q.den : ℚ) := (le_div_iff₀ hden).mpr h2
  simpa [Rat.num_div_den] using h3

theorem lt_pyInt_add_one {q : ℚ} (hq : 0 ≤ q) : q < (pyInt q : ℚ) + 1 := by
  have hden : (0 : ℚ) < (q.den : ℚ) := by
    exact_mod_cast q.den_pos
  have hnum : 0 ≤ q.num := Rat.num_nonneg.mpr hq
  have h1 : q.num.toNat < (pyInt q + 1) * q.den := by
    have hmod := Nat.div_add_mod q.num.toNat q.den
    have hlt : q.num.toNat % q.den < q.den := Nat.mod_lt _ q.den_pos
    unfold pyInt
    calc q.num.toNat
        = q.den * (q.num.toNat / q.den) + q.num.toNat % q.den := hmod.symm
      _ < q.den * (q.num.toNat / q.den) + q.den := Nat.add_lt_add_left hlt _
      _ = (q.num.toNat / q.den + 1) * q.den := by ring
  have h2 : (q.num : ℚ) < ((pyInt q : ℚ) + 1) * (q.den : ℚ) := by
    rw [show (q.num : ℚ) = (q.num.toNat : ℚ) from by
      exact_mod_cast congrArg (fun z : ℤ => (z : ℚ)) (Int.toNat_of_nonneg hnum).symm]
    calc (q.num.toNat : ℚ)
        < (((pyInt q + 1) * q.den : ℕ) : ℚ) := by exact_mod_cast h1
      _ = ((pyInt q : ℚ) + 1) * (q.den : ℚ) := by push_cast; ring
  have h3 : (q.num : ℚ) / (q.den : ℚ) < (pyInt q : ℚ) + 1 := (div_lt_iff₀ hden).mpr h2
  simpa [Rat.num_div_den] using h3

theorem pyInt_mono {a b : ℚ} (ha : 0 ≤ a) (hb : 0 ≤ b) (h : a ≤ b) :
    pyInt a ≤ pyInt b := by
  have h1 : (pyInt a : ℚ) ≤ a := pyInt_cast_le ha
  have h2 : b < (pyInt b : ℚ) + 1 := lt_pyInt_add_one hb
  have : (pyInt a : ℚ) < (pyInt b : ℚ) + 1 := lt_of_le_of_lt (h1.trans h) h2
  exact_mod_cast Nat.lt_add_one_iff.mp (by exact_mod_cast this)

/-- C7 counterexample: `"Ch.5"` and `"Ch.5.5"` produce the distinct
keys 5.0 and 5.5 with 5.0 < 5.5, yet the 4-digit-padded forms the
combiner assigns (after `int()` truncation) coincide, so the padded
forms neither order strictly nor stay distinct. -/
theorem C7_counterexample :
    extract_chapter_number "Ch.5" = some 5 ∧
    extract_chapter_number "Ch.5.5" = some (mkRat 11 2) ∧
    (5 : ℚ) ≠ mkRat 11 2 ∧
    (5 : ℚ) < mkRat 11 2 ∧
    pad4 (pyInt 5) = pad4 (pyInt (mkRat 11 2)) ∧
    charsLt (pad4 (pyInt 5)) (pad4 (pyInt (mkRat 11 2))) = false := by
  refine ⟨by decide, by decide, by decide, by decide, by decide, by decide⟩

/-- C7 amended: for nonnegative keys whose truncated integer parts are
distinct and below 10000, numeric order of the keys agrees with the
lexicographic order of the assigned 4-digit-padded forms, and distinct
such keys receive distinct padded forms. -/
theorem C7_amended_padded_order (a b : ℚ) (ha : 0 ≤ a) (hb : 0 ≤ b)
    (hne : pyInt a ≠ pyInt b) (ha4 : pyInt a < 10000) (hb4 : pyInt b < 10000) :
    (a < b → charsLt (pad4 (pyInt a)) (pad4 (pyInt b)) = true) ∧
    pad4 (pyInt a) ≠ pad4 (pyInt b) := by
  constructor
  · intro hab
    have hle : pyInt a ≤ pyInt b := pyInt_mono ha hb hab.le
    exact pad4_lt ha4 hb4 (lt_of_le_of_ne hle hne)
  · rcases Nat.lt_or_ge (pyInt a) (pyInt b) with h | h
    · exact charsLt_ne (pad4_lt ha4 hb4 h)
    · have h' : pyInt b < pyInt a := lt_of_le_of_ne h (Ne.symm hne)
      exact (charsLt_ne (pad4_lt hb4 ha4 h')).symm

/-- Witness for the amended C7 at the concrete keys 7.0 and 8.5. -/
theorem C7_amended_padded_order_witness :
    charsLt (pad4 (pyInt 7)) (pad4 (pyInt (mkRat 85 10))) = true :=
  (C7_amended_padded_order 7 (mkRat 85 10) (by decide) (by decide) (by decide)
    (by decide) (by decide)).1 (by decide)

/-! ### The chapter-directory sort helper (`get_chapter_directories`,
`chapter_combiner_external.py`, lines 93-103) -/

/-- The sort key `extract_chapter_number(x) or float('inf')`: Python's
`or` replaces both `None` AND the falsy key `0.0` by infinity
(modelled as `⊤`). -/
def pyKey (x : String) : WithTop ℚ :=
  match extract_chapter_number x with
  | none => ⊤
  | some q => if q = 0 then ⊤ else (q : WithTop ℚ)

theorem pyKey_of_none {x : String} (h : extract_chapter_number x = none) :
    pyKey x = ⊤ := by
  unfold pyKey
  rw [h]

theorem pyKey_of_some {x : String} {q : ℚ}
    (h : extract_chapter_number x = some q) :
    pyKey x = if q = 0 then ⊤ else (q : WithTop ℚ) := by
  unfold pyKey
  rw [h]

/-- The comparison `sorted` uses in `get_chapter_directories`. -/
def chapterKeyLe (a b : String) : Prop := pyKey a ≤ pyKey b

instance : DecidableRel chapterKeyLe := fun a b =>
  inferInstanceAs (Decidable (pyKey a ≤ pyKey b))

instance : IsTotal String chapterKeyLe := ⟨fun a b => le_total (pyKey a) (pyKey b)⟩

instance : IsTrans String chapterKeyLe :=
  ⟨fun _ _ _ h1 h2 => le_trans h1 h2⟩

/-- `get_chapter_directories` restricted to its pure core: the stable
sort of the chapter directory names by `pyKey`. -/
def get_chapter_directories (dirs : List String) : List String :=
  List.insertionSort chapterKeyLe dirs

/-- C8 counterexample: `"Ch.0"` extracts successfully (key 0.0), yet
Python's `or` treats the falsy 0.0 as absent, assigns the infinite
sentinel, and sorts `"Ch.0"` after `"Ch.1"` — the claim predicts the
sentinel goes exactly to extraction failures, hence output
`["Ch.0", "Ch.1"]`. -/
theorem C8_counterexample :
    extract_chapter_number "Ch.0" = some 0 ∧
    pyKey "Ch.0" = ⊤ ∧
    get_chapter_directories ["Ch.0", "Ch.1"] = ["Ch.1", "Ch.0"] := by
  refine ⟨by decide, by decide, by decide⟩

/-- C8 amended: the sort helper orders names ascending by their key,
where exactly the names whose extraction fails **or yields the falsy
key 0.0** are assigned the infinite sentinel (and the sentinel is the
top of the order, so such names sort after every name with a nonzero
extracted key). -/
theorem C8_amended_sort (l : List String) :
    (get_chapter_directories l).Perm l ∧
    List.Sorted chapterKeyLe (get_chapter_directories l) ∧
    (∀ x : String,
      pyKey x = ⊤ ↔
        (extract_chapter_number x = none ∨ extract_chapter_number x = some 0)) ∧
    (∀ a b : String, pyKey b = ⊤ → chapterKeyLe a b) := by
  refine ⟨List.perm_insertionSort chapterKeyLe l,
    List.sorted_insertionSort chapterKeyLe l, fun x => ?_, fun x y hy => ?_⟩
  · constructor
    · intro hx
      cases he : extract_chapter_number x with
      | none => exact Or.inl rfl
      | some q =>
        by_cases h0 : q = 0
        · subst h0
          exact Or.inr rfl
        · exfalso
          rw [pyKey_of_some he, if_neg h0] at hx
          exact WithTop.coe_ne_top hx
    · intro hx
      rcases hx with hx | hx
      · exact pyKey_of_none hx
      · rw [pyKey_of_some hx, if_pos rfl]
  · unfold chapterKeyLe
    rw [hy]
    exact le_top

/-- Witness for the amended C8 at a concrete directory list. -/
theorem C8_amended_sort_witness :
    (get_chapter_directories ["Ch.2", "Ch.1"]).Perm ["Ch.2", "Ch.1"] :=
  (C8_amended_sort ["Ch.2", "Ch.1"]).1

/-! ### The downloader's archive merge and resume logic
(`downloader.py`) -/

/-- ASCII fragment of Python `str.lower`. -/
def lowerCh (c : Char) : Char :=
  if 65 ≤ c.toNat ∧ c.toNat ≤ 90 then Char.ofNat (c.toNat + 32) else c

/-- ASCII fragment of Python `str.lower` on a character list. -/
def lowerChars (cs : List Char) : List Char := cs.map lowerCh

/-- Python `str.endswith`. -/
def pyEndsWith (s suf : String) : Bool := List.isSuffixOf suf.data s.data

/-- `os.path.basename` on a zip entry name: the part after the last
path separator. -/
def baseNameChars (cs : List Char) : List Char :=
  (cs.reverse.takeWhile (fun c => c ≠ '/')).reverse

/-- `os.path.splitext`: split at the last dot, provided a non-dot
character precedes it (else no extension). -/
def splitExtChars (cs : List Char) : List Char × List Char :=
  let rev := cs.reverse
  let afterRev := rev.takeWhile (fun c => c ≠ '.')
  match rev.dropWhile (fun c => c ≠ '.') with
  | [] => (cs, [])
  | _ :: baseRev =>
    if baseRev.reverse.any (fun c => c ≠ '.') then
      (baseRev.reverse, '.' :: afterRev.reverse)
    else (cs, [])

/-- Writing a file into a directory modelled as a name-keyed list:
an existing name is overwritten, a new one appended. -/
def upsertFile {α : Type} (m : List (String × α)) (kv : String × α) :
    List (String × α) :=
  if m.any (fun p => p.1 == kv.1) then
    m.map (fun p => if p.1 == kv.1 then kv else p)
  else m ++ [kv]

/-- Ordering files of a directory by name (Python's `sorted` over
`os.listdir` / `os.walk` results). -/
def byNameLe {α : Type} (a b : String × α) : Prop := pyStrLe a.1 b.1

instance {α : Type} : DecidableRel (@byNameLe α) := fun a b =>
  inferInstanceAs (Decidable (pyStrLe a.1 b.1))

instance {α : Type} : IsTotal (String × α) byNameLe :=
  ⟨fun a b => charsLe_total a.1.data b.1.data⟩

instance {α : Type} : IsTrans (String × α) byNameLe :=
  ⟨fun _ _ _ h1 h2 => charsLe_trans h1 h2⟩

deriving instance DecidableEq for Except

/-- `re.match(r'Chapter_(\d+)(?:\.(\d+))?', stem)` from
`extract_chapter` (`downloader.py`, lines 397-410): the main chapter
digits and the decimal digits (defaulting to `"0"`). -/
def parseChapterStem (cs : List Char) : Option (ℕ × List Char) :=
  match cs with
  | 'C' :: 'h' :: 'a' :: 'p' :: 't' :: 'e' :: 'r' :: '_' :: rest =>
    let p := takeDigits rest
    if p.1.isEmpty then none
    else
      match p.2 with
      | '.' :: r2 =>
        let q := takeDigits r2
        if q.1.isEmpty then some (digitsToNat p.1, ['0'])
        else some (digitsToNat p.1, q.1)
      | _ => some (digitsToNat p.1, ['0'])
  | _ => none

/-- `chapter_num = f"{int(main_num):03d}.{decimal_part}"`. -/
def chapterNumChars (mainNum : ℕ) (dec : List Char) : List Char :=
  pad3 mainNum ++ '.' :: dec

/-- `extract_chapter` (`downloader.py`, lines 397-427): extract a
chapter archive into its scratch directory, renaming each entry to
`f"{chapter_num}{name}{ext}"` (the entry's base name with the chapter
number in front) and skipping `metadata.txt`. Each produced file keeps
its source `(chapter file, entry name)` as content. Raises when the
filename does not carry a chapter number. -/
def extract_chapter_model (chapterFile : String) (entries : List String) :
    Except String (List (String × (String × String))) :=
  match parseChapterStem (splitExtChars chapterFile.data).1 with
  | none =>
    .error ("Could not extract chapter number from filename: "
      ++ String.mk (splitExtChars chapterFile.data).1)
  | some (m, dec) =>
    .ok (entries.filterMap (fun en =>
      if lowerChars en.data = "metadata.txt".data then none
      else
        some (String.mk (chapterNumChars m dec ++ baseNameChars en.data),
          (chapterFile, en))))

/-- One chapter's contribution to the combined archive: the scratch
directory's files (last write wins) walked in sorted name order,
skipping `metadata.txt`. -/
def chapterOutputEntries (writes : List (String × (String × String))) :
    List (String × (String × String)) :=
  (List.insertionSort byNameLe (writes.foldl upsertFile [])).filter
    (fun p => lowerChars p.1.data ≠ "metadata.txt".data)

/-- The per-chapter loop of the downloader's `combine_chapters`. -/
def combineDlLoop :
    List (String × List String) →
      Except String (List (String × (String × String)))
  | [] => .ok []
  | (fname, ents) :: rest =>
    match extract_chapter_model fname ents with
    | .error e => .error e
    | .ok writes =>
      match combineDlLoop rest with
      | .error e => .error e
      | .ok out => .ok (chapterOutputEntries writes ++ out)

/-- `combine_chapters` (`downloader.py`, lines 429-462): keep the
`.cbz` files, sort them with plain `sorted()` (lexicographic on the
filename), then write each chapter's renamed entries to the combined
archive in that order. -/
def combine_chapters_dl (files : List (String × List String)) :
    Except String (List (String × (String × String))) :=
  let cbz := files.filter (fun f => pyEndsWith f.1 ".cbz")
  if cbz.isEmpty then
    .error "No chapter files found in the selected manga directory"
  else combineDlLoop (List.insertionSort byNameLe cbz)

/-- Lexicographic order on `(main, decimal)` chapter keys (Python tuple
comparison). -/
def pairLeNat (x y : ℕ × ℕ) : Prop :=
  x.1 < y.1 ∨ (x.1 = y.1 ∧ x.2 ≤ y.2)

instance : DecidableRel pairLeNat := fun x y =>
  inferInstanceAs (Decidable (x.1 < y.1 ∨ (x.1 = y.1 ∧ x.2 ≤ y.2)))

instance : IsTotal (ℕ × ℕ) pairLeNat := ⟨fun x y => by
  unfold pairLeNat
  omega⟩

instance : IsTrans (ℕ × ℕ) pairLeNat := ⟨fun x y z h1 h2 => by
  unfold pairLeNat at h1 h2 ⊢
  omega⟩

/-- `chapter_key` inside `get_chapter_files` (`downloader.py`, lines
472-479): numeric `(main, decimal)` key, `(0, 0)` when the pattern does
not match. -/
def chapterKeyDl (filename : String) : ℕ × ℕ :=
  match parseChapterStem (splitExtChars filename.data).1 with
  | some (m, dec) => (m, digitsToNat dec)
  | none => (0, 0)

/-- `get_chapter_files` (`downloader.py`, lines 464-481): the *numeric*
chapter sort ("Sort chapters numerically, handling decimal chapter
numbers") — defined in the source but never called. -/
def get_chapter_files (files : List String) : List String :=
  List.insertionSort (fun a b => pairLeNat (chapterKeyDl a) (chapterKeyDl b))
    (files.filter (fun f => pyEndsWith f ".cbz"))

/-- C2: evaluation at the failing input. With chapters 5 and 10 present,
`combine_chapters` writes Chapter_10.0's pages *before* Chapter_5.0's
(plain `sorted()` compares filenames as strings), while the unused
numeric sort helper `get_chapter_files` orders them 5 before 10 as the
claim demands. -/
theorem C2_merge_is_lexicographic_not_numeric :
    combine_chapters_dl
        [("Chapter_10.0.cbz", ["000.jpg"]), ("Chapter_5.0.cbz", ["000.jpg"])] =
      .ok [("010.0000.jpg", ("Chapter_10.0.cbz", "000.jpg")),
        ("005.0000.jpg", ("Chapter_5.0.cbz", "000.jpg"))] ∧
    get_chapter_files ["Chapter_10.0.cbz", "Chapter_5.0.cbz"] =
      ["Chapter_5.0.cbz", "Chapter_10.0.cbz"] := by
  refine ⟨by decide, by decide⟩

/-- `get_downloaded_chapters`'s filename pattern
`re.match(r'Chapter_(\d+\.?\d*)', file)`: the captured label text. -/
def matchDownloadedLabel (cs : List Char) : Option String :=
  match cs with
  | 'C' :: 'h' :: 'a' :: 'p' :: 't' :: 'e' :: 'r' :: '_' :: rest =>
    let p := takeDigits rest
    if p.1.isEmpty then none
    else
      match p.2 with
      | '.' :: r2 =>
        let q := takeDigits r2
        some (String.mk (p.1 ++ '.' :: q.1))
      | _ => some (String.mk p.1)
  | _ => none

/-- `get_downloaded_chapters` (`downloader.py`, lines 483-492): the
chapter labels recovered from already-present `.cbz` files (excluding
`_combined.cbz`). -/
def get_downloaded_chapters (files : List String) : List String :=
  files.filterMap (fun f =>
    if pyEndsWith f ".cbz" && !(pyEndsWith f "_combined.cbz") then
      matchDownloadedLabel f.data
    else none)

/-- The skip decision of the main loop (`downloader.py`, lines
593-600): a remote chapter is skipped exactly when its label string is
a member of the downloaded set. -/
def skippedChapters (folder : List String) (labels : List String) :
    List String :=
  labels.filter (fun lab => (get_downloaded_chapters folder).contains lab)

/-- C3: evaluation at the failing input. The folder-derived labels are
`"5.0"`/`"6.0"` while the remote labels are `"5"`/`"6"`, so the
membership test never fires and *nothing* is skipped — chapters 5 and 6
are downloaded again, contradicting the resume claim. -/
theorem C3_resume_never_skips_whole_chapters :
    get_downloaded_chapters ["Chapter_5.0.cbz", "Chapter_6.0.cbz"] =
      ["5.0", "6.0"] ∧
    skippedChapters ["Chapter_5.0.cbz", "Chapter_6.0.cbz"] ["5", "6", "7"] =
      [] := by
  refine ⟨by decide, by decide⟩

/-! ### The downloader's main loop and its all-or-nothing cleanup
(`downloader.py`, lines 589-683) -/

/-- `s.startswith(pre)`. -/
def strStartsWith (s pre : String) : Bool := List.isPrefixOf pre.data s.data

/-- A remote chapter as the downloader sees it: its title and the
outcome of each sequential page fetch (bytes, or the exception the
fetch raises). -/
structure DlChapter where
  title : String
  pages : List (Except String String)

/-- The manga output folder: whether `output_base` exists and the files
under it. -/
structure FsState where
  dirExists : Bool
  files : List (String × String)

/-- The page loop of `download_chapter` (`downloader.py`, lines
289-297): fetch each page in order, write it as `f"{i:03d}.jpg"` in the
chapter's image directory; a failing fetch raises immediately. -/
def fetchPagesLoop (title : String) :
    List (Except String String) → FsState → ℕ → Except String FsState
  | [], fs, _ => .ok fs
  | p :: rest, fs, i =>
    match p with
    | .error e => .error e
    | .ok bytes =>
      fetchPagesLoop title rest
        { fs with
          files := upsertFile fs.files
            (title ++ "/" ++ String.mk (pad3 i) ++ ".jpg", bytes) }
        (i + 1)

/-- One iteration of the chapter loop (`downloader.py`, lines 604-649):
download the pages, pack them into `f"{chapter_title}.cbz"`, remove the
image directory; any exception propagates. -/
def processOneChapter (ch : DlChapter) (fs : FsState) : Except String FsState :=
  match fetchPagesLoop ch.title ch.pages fs 0 with
  | .error e => .error e
  | .ok fs1 =>
    let fs2 : FsState :=
      { fs1 with files := upsertFile fs1.files (ch.title ++ ".cbz", "archive") }
    .ok { fs2 with
      files := fs2.files.filter
        (fun p => !(strStartsWith p.1 (ch.title ++ "/"))) }

/-- The sequential chapter loop: stops at the first raised exception. -/
def downloadAllChapters : List DlChapter → FsState → Except String FsState
  | [], fs => .ok fs
  | ch :: rest, fs =>
    match processOneChapter ch fs with
    | .error e => .error e
    | .ok fs' => downloadAllChapters rest fs'

/-- The downloader's manga-level run (`downloader.py`, lines 589-683):
on success, merge the chapter archives into `_combined.cbz` and delete
the per-chapter archives; on any exception, the `except` block removes
the whole `output_base` folder (`shutil.rmtree`) and re-raises. Returns
the propagated outcome and the final state of the manga folder. -/
def mainDownloadRun (mangaTitle : String) (chapters : List DlChapter) :
    Except String Unit × FsState :=
  match downloadAllChapters chapters ⟨true, []⟩ with
  | .ok fsEnd =>
    (.ok (),
      { fsEnd with
        files :=
          fsEnd.files.filter
            (fun p =>
              !(pyEndsWith p.1 ".cbz" && !(pyEndsWith p.1 "_combined.cbz")))
          ++ [(mangaTitle ++ "_combined.cbz", "archive")] })
  | .error e => (.error e, ⟨false, []⟩)

theorem fetchPagesLoop_fails {title : String}
    (pages : List (Except String String))
    (hfail : ∃ p ∈ pages, ∃ e, p = .error e) :
    ∀ fs i, ∃ e', fetchPagesLoop title pages fs i = .error e' := by
  induction pages with
  | nil => obtain ⟨p, hp, _⟩ := hfail; cases hp
  | cons p rest ih =>
    intro fs i
    obtain ⟨p', hp', e, he⟩ := hfail
    cases p with
    | error e0 => exact ⟨e0, rfl⟩
    | ok bytes =>
      rcases List.mem_cons.mp hp' with rfl | hmem
      · cases he
      · exact ih ⟨p', hmem, e, he⟩ _ _

theorem downloadAllChapters_fails (chapters : List DlChapter)
    (hfail : ∃ ch ∈ chapters, ∃ p ∈ ch.pages, ∃ e, p = .error e) :
    ∀ fs, ∃ e', downloadAllChapters chapters fs = .error e' := by
  induction chapters with
  | nil => obtain ⟨ch, hch, _⟩ := hfail; cases hch
  | cons ch rest ih =>
    intro fs
    obtain ⟨ch', hch', hpages⟩ := hfail
    rcases List.mem_cons.mp hch' with rfl | hmem
    · obtain ⟨e', he'⟩ := fetchPagesLoop_fails ch'.pages hpages fs 0
      refine ⟨e', ?_⟩
      rw [downloadAllChapters, processOneChapter, he']
    · cases hp : processOneChapter ch fs with
      | error e0 =>
        refine ⟨e0, ?_⟩
        rw [downloadAllChapters, hp]
      | ok fs' =>
        obtain ⟨e', he'⟩ := ih ⟨ch', hmem, hpages⟩ fs'
        refine ⟨e', ?_⟩
        rw [downloadAllChapters, hp]
        exact he'

/-- C6: if any page fetch of any chapter raises, the manga-level run
propagates an exception to the top level and the manga output folder is
deleted — the directory is absent and empty of files after the run. -/
theorem C6_midfailure_deletes_folder_and_propagates
    (mangaTitle : String) (chapters : List DlChapter)
    (hfail : ∃ ch ∈ chapters, ∃ p ∈ ch.pages, ∃ e, p = .error e) :
    (∃ e, (mainDownloadRun mangaTitle chapters).1 = .error e) ∧
    (mainDownloadRun mangaTitle chapters).2.dirExists = false ∧
    (mainDownloadRun mangaTitle chapters).2.files = [] := by
  obtain ⟨e', he'⟩ := downloadAllChapters_fails chapters hfail ⟨true, []⟩
  unfold mainDownloadRun
  rw [he']
  exact ⟨⟨e', rfl⟩, rfl, rfl⟩

/-- Witness for C6: a one-chapter run whose second page fetch raises. -/
theorem C6_midfailure_deletes_folder_and_propagates_witness :
    (mainDownloadRun "Manga"
        [⟨"Chapter_1.0", [.ok "bytes0", .error "HTTP 500"]⟩]).2.dirExists =
      false :=
  (C6_midfailure_deletes_folder_and_propagates "Manga"
    [⟨"Chapter_1.0", [.ok "bytes0", .error "HTTP 500"]⟩]
    ⟨⟨"Chapter_1.0", [.ok "bytes0", .error "HTTP 500"]⟩, by simp,
      .error "HTTP 500", by simp, "HTTP 500", rfl⟩).2.1

/-! ### The directory combiner (`chapter_combiner_external.py`,
lines 105-153)

A manga directory is a list of chapter subdirectories, each a name
paired with its file listing; file contents are identified by their
source `(directory, file)`. -/

/-- `f.lower().endswith(('.jpg', '.jpeg', '.png', '.webp'))`. -/
def isImageFile (f : String) : Bool :=
  pyEndsWith (String.mk (lowerChars f.data)) ".jpg" ||
    pyEndsWith (String.mk (lowerChars f.data)) ".jpeg" ||
    pyEndsWith (String.mk (lowerChars f.data)) ".png" ||
    pyEndsWith (String.mk (lowerChars f.data)) ".webp"

/-- `process_chapter` (`chapter_combiner_external.py`, lines 105-121):
the files this chapter copies into the shared scratch directory — its
images, sorted, renamed to `f"{chapter_num_str}_{i:03d}{ext}"` with `i`
counted from 1. -/
def process_chapter (dirName : String) (files : List String)
    (chapterNumStr : List Char) : List (String × (String × String)) :=
  (List.insertionSort pyStrLe (files.filter isImageFile)).enum.map
    (fun pr =>
      (String.mk (chapterNumStr
          ++ (('_' :: pad3 (pr.1 + 1)) ++ (splitExtChars pr.2.data).2)),
        (dirName, pr.2)))

/-- One directory's scratch-area writes: nothing when the name fails
extraction, else `process_chapter` under the 4-digit truncated key. -/
def chapterEntriesOf (d : String × List String) :
    List (String × (String × String)) :=
  match extract_chapter_number d.1 with
  | none => []
  | some key => process_chapter d.1 d.2 (pad4 (pyInt key))

/-- The processing order of `combine_chapters`: the chapter
directories sorted by `get_chapter_directories`'s (falsy-0.0) key. -/
def dirKeyLe (a b : String × List String) : Prop := pyKey a.1 ≤ pyKey b.1

instance : DecidableRel dirKeyLe := fun a b =>
  inferInstanceAs (Decidable (pyKey a.1 ≤ pyKey b.1))

instance : IsTotal (String × List String) dirKeyLe :=
  ⟨fun a b => le_total (pyKey a.1) (pyKey b.1)⟩

instance : IsTrans (String × List String) dirKeyLe :=
  ⟨fun _ _ _ h1 h2 => le_trans h1 h2⟩

/-- The warning `combine_chapters` prints for a directory whose name
fails extraction. -/
def unrecognizedName (d : String × List String) : Option String :=
  match extract_chapter_number d.1 with
  | none => some d.1
  | some _ => none

/-- The warnings of one run, in processing order. -/
def warningsOf (dirs : List (String × List String)) : List String :=
  (List.insertionSort dirKeyLe dirs).filterMap unrecognizedName

/-- `combine_chapters` (`chapter_combiner_external.py`, lines 123-153):
raise when there are no chapter directories; otherwise process each
directory in key order (unparseable names warn and are skipped), each
write overwriting any same-named file in the scratch directory, and
emit the scratch files into the archive in sorted name order. -/
def combine_chapters_ext (dirs : List (String × List String)) :
    Except String (List (String × (String × String)) × List String) :=
  let sortedDirs := List.insertionSort dirKeyLe dirs
  if sortedDirs.isEmpty then
    .error "No chapter directories found in the selected manga directory"
  else
    .ok (List.insertionSort byNameLe
      ((sortedDirs.flatMap chapterEntriesOf).foldl upsertFile []),
      warningsOf dirs)

/-- Whether the extractor parses a directory name. -/
def recognizedDir (d : String × List String) : Bool :=
  (extract_chapter_number d.1).isSome

/-- The 4-digit archive key a recognized directory is filed under. -/
def dirIntKey (d : String × List String) : ℕ :=
  pyInt ((extract_chapter_number d.1).getD 0)

/-- Ascending order of truncated chapter keys. -/
def dirIntLe (a b : String × List String) : Prop :=
  dirIntKey a ≤ dirIntKey b

instance : DecidableRel dirIntLe := fun a b =>
  inferInstanceAs (Decidable (dirIntKey a ≤ dirIntKey b))

instance : IsTotal (String × List String) dirIntLe :=
  ⟨fun a b => Nat.le_total (dirIntKey a) (dirIntKey b)⟩

instance : IsTrans (String × List String) dirIntLe :=
  ⟨fun _ _ _ h1 h2 => Nat.le_trans h1 h2⟩

/-- The recognized chapter directories in ascending key order. -/
def canonicalChapters (dirs : List (String × List String)) :
    List (String × List String) :=
  List.insertionSort dirIntLe (dirs.filter recognizedDir)

/-- The archive the claim describes: exactly the union of the
recognized chapters' images, chapter by chapter in ascending key order,
pages in sorted order within each chapter, under the
`"<4-digit key>_<3-digit index><ext>"` names. -/
def canonicalCombined (dirs : List (String × List String)) :
    List (String × (String × String)) :=
  (canonicalChapters dirs).flatMap chapterEntriesOf

/-- C5 counterexample: `"Ch.5"` and `"Ch.5.5"` are both recognized, but
`int()` truncation files both chapters under the prefix `0005`, so
`Ch.5.5`'s page silently overwrites `Ch.5`'s in the scratch directory:
the output archive has a single entry and `("Ch.5", "a.jpg")` is
missing, refuting "exactly the union of the recognized chapters'
images". -/
theorem C5_counterexample :
    extract_chapter_number "Ch.5" = some 5 ∧
    extract_chapter_number "Ch.5.5" = some (mkRat 11 2) ∧
    combine_chapters_ext [("Ch.5", ["a.jpg"]), ("Ch.5.5", ["b.jpg"])] =
      .ok ([("0005_001.jpg", ("Ch.5.5", "b.jpg"))], []) := by
  refine ⟨by decide, by decide, by decide⟩

/-! ### Helper lemmas for the amended directory-combine property -/

/-- Strict name order on scratch files. -/
def byNameLt {α : Type} (a b : String × α) : Prop :=
  charsLt a.1.data b.1.data = true

theorem charsLt_append_same (P A B : List Char) :
    charsLt (P ++ A) (P ++ B) = charsLt A B := by
  induction P with
  | nil => rfl
  | cons c cs ih => simp [charsLt, ih]

theorem charsLt_append_of_lt {A B : List Char} (hlen : A.length = B.length)
    (h : charsLt A B = true) (X Y : List Char) :
    charsLt (A ++ X) (B ++ Y) = true := by
  induction A generalizing B with
  | nil =>
    cases B with
    | nil => rw [charsLt] at h; cases h
    | cons y ys => cases hlen
  | cons x xs ih =>
    cases B with
    | nil => cases hlen
    | cons y ys =>
      simp only [charsLt, Bool.or_eq_true, Bool.and_eq_true,
        decide_eq_true_eq] at h ⊢
      rcases h with h | ⟨he, hr⟩
      · exact Or.inl h
      · exact Or.inr ⟨he, ih (by simpa using hlen) hr⟩

theorem charsLt_le_asymm {a b : List Char} (h1 : charsLt a b = true)
    (h2 : charsLe b a = true) : False := by
  induction a generalizing b with
  | nil =>
    cases b with
    | nil => rw [charsLt] at h1; cases h1
    | cons y ys => rw [charsLe] at h2; cases h2
  | cons x xs ih =>
    cases b with
    | nil => rw [charsLt] at h1; cases h1
    | cons y ys =>
      simp only [charsLt, charsLe, Bool.or_eq_true, Bool.and_eq_true,
        decide_eq_true_eq] at h1 h2
      rcases h1 with h1 | ⟨e1, r1⟩ <;> rcases h2 with h2 | ⟨e2, r2⟩
      · omega
      · omega
      · omega
      · exact ih r1 r2

theorem enumFrom_pairwise_lt {α : Type} (l : List α) :
    ∀ n, (List.enumFrom n l).Pairwise (fun a b => a.1 < b.1) := by
  induction l with
  | nil => intro n; exact List.Pairwise.nil
  | cons x xs ih =>
    intro n
    refine List.Pairwise.cons ?_ (ih (n + 1))
    intro y hy
    obtain ⟨i, a⟩ := y
    have := (List.mem_enumFrom hy).1
    omega

theorem mem_enum_idx_lt {α : Type} {l : List α} {p : ℕ × α}
    (h : p ∈ l.enum) : p.1 < l.length := by
  obtain ⟨i, a⟩ := p
  have := (List.mem_enumFrom h).2.1
  omega

theorem flatMap_filter_eq {α β : Type} (p : α → Bool) (f : α → List β)
    (hnil : ∀ d, p d = false → f d = []) (l : List α) :
    (l.filter p).flatMap f = l.flatMap f := by
  induction l with
  | nil => rfl
  | cons d t ih =>
    by_cases hd : p d = true
    · rw [List.filter_cons_of_pos hd]
      simp [ih]
    · rw [List.filter_cons_of_neg (by simpa using hd)]
      have : f d = [] := hnil d (by simpa using hd)
      simp [ih, this]

theorem foldl_upsert_eq_append {α : Type} (l : List (String × α)) :
    ∀ acc, ((acc ++ l).map Prod.fst).Nodup →
      l.foldl upsertFile acc = acc ++ l := by
  induction l with
  | nil => intro acc _; simp
  | cons kv t ih =>
    intro acc hnd
    have hnd' : (acc.map Prod.fst ++ (kv.1 :: t.map Prod.fst)).Nodup := by
      simpa using hnd
    rw [List.nodup_append] at hnd'
    have hany : acc.any (fun p => p.1 == kv.1) = false := by
      rw [List.any_eq_false]
      intro x hx hbeq
      exact hnd'.2.2 (List.mem_map_of_mem Prod.fst hx)
        (by rw [beq_iff_eq] at hbeq; rw [hbeq]; exact List.mem_cons_self _ _)
    have hup : upsertFile acc kv = acc ++ [kv] := by
      unfold upsertFile
      rw [hany]
      rfl
    rw [List.foldl_cons, hup,
      ih (acc ++ [kv]) (by simpa [List.append_assoc] using hnd)]
    simp

theorem name_sorted_unique {α : Type} {l1 l2 : List (String × α)}
    (hperm : l1.Perm l2) (h1 : l1.Pairwise byNameLe)
    (h2 : l2.Pairwise byNameLt) : l1 = l2 := by
  induction l1 generalizing l2 with
  | nil => exact (hperm.symm.eq_nil).symm
  | cons a t1 ih =>
    cases l2 with
    | nil => cases hperm.eq_nil
    | cons b t2 =>
      have hab : a = b := by
        by_contra hne
        have haMem : a ∈ b :: t2 := hperm.subset (List.mem_cons_self a t1)
        have haT2 : a ∈ t2 := by
          rcases List.mem_cons.mp haMem with h | h
          · exact absurd h hne
          · exact h
        have hba : byNameLt b a := (List.pairwise_cons.mp h2).1 a haT2
        have hbMem : b ∈ a :: t1 := hperm.symm.subset (List.mem_cons_self b t2)
        have hbT1 : b ∈ t1 := by
          rcases List.mem_cons.mp hbMem with h | h
          · exact absurd h.symm hne
          · exact h
        have hab' : byNameLe a b := (List.pairwise_cons.mp h1).1 b hbT1
        exact charsLt_le_asymm hba hab'
      subst hab
      rw [ih hperm.cons_inv (List.pairwise_cons.mp h1).2
        (List.pairwise_cons.mp h2).2]

theorem chapterEntriesOf_of_unrecognized {d : String × List String}
    (h : recognizedDir d = false) : chapterEntriesOf d = [] := by
  unfold chapterEntriesOf
  unfold recognizedDir at h
  cases he : extract_chapter_number d.1 with
  | none => rfl
  | some k => rw [he] at h; cases h

theorem dirIntKey_of_some {d : String × List String} {k : ℚ}
    (h : extract_chapter_number d.1 = some k) : dirIntKey d = pyInt k := by
  unfold dirIntKey
  rw [h]
  rfl

theorem process_chapter_pairwise (dirName : String) (files : List String)
    (K : ℕ)
    (hlen : (files.filter isImageFile).length ≤ 999) :
    (process_chapter dirName files (pad4 K)).Pairwise byNameLt := by
  unfold process_chapter
  rw [List.pairwise_map]
  have hlen' : (List.insertionSort pyStrLe (files.filter isImageFile)).length
      ≤ 999 := by
    rw [(List.perm_insertionSort pyStrLe (files.filter isImageFile)).length_eq]
    exact hlen
  have hpw := enumFrom_pairwise_lt
    (List.insertionSort pyStrLe (files.filter isImageFile)) 0
  refine hpw.imp_of_mem ?_
  intro a b ha hb hlt
  have hba : a.1 < 999 := lt_of_lt_of_le (mem_enum_idx_lt ha) hlen'
  have hbb : b.1 < 999 := lt_of_lt_of_le (mem_enum_idx_lt hb) hlen'
  have hgoal : charsLt
      (pad4 K ++ (('_' :: pad3 (a.1 + 1)) ++ (splitExtChars a.2.data).2))
      (pad4 K ++ (('_' :: pad3 (b.1 + 1)) ++ (splitExtChars b.2.data).2))
      = true := by
    rw [charsLt_append_same]
    refine charsLt_append_of_lt ?_ ?_ _ _
    · simp [pad3_length (by omega : a.1 + 1 < 1000),
        pad3_length (by omega : b.1 + 1 < 1000)]
    · have h3 := pad3_lt (by omega : a.1 + 1 < 1000)
        (by omega : b.1 + 1 < 1000) (by omega)
      simp [charsLt, h3]
  exact hgoal

theorem canonicalCombined_pairwise (dirs : List (String × List String))
    (hkeys : dirs.Pairwise (fun d1 d2 =>
      recognizedDir d1 = true → recognizedDir d2 = true →
        dirIntKey d1 ≠ dirIntKey d2))
    (hbound : ∀ d ∈ dirs, recognizedDir d = true → dirIntKey d < 10000)
    (himgs : ∀ d ∈ dirs, (d.2.filter isImageFile).length ≤ 999) :
    (canonicalCombined dirs).Pairwise byNameLt := by
  have hmemDirs : ∀ d ∈ canonicalChapters dirs,
      d ∈ dirs ∧ recognizedDir d = true := by
    intro d hd
    have : d ∈ dirs.filter recognizedDir :=
      (List.perm_insertionSort dirIntLe (dirs.filter recognizedDir)).subset hd
    exact ⟨(List.mem_filter.mp this).1, (List.mem_filter.mp this).2⟩
  unfold canonicalCombined
  rw [List.flatMap_def, List.pairwise_flatten]
  constructor
  · intro l hl
    rw [List.mem_map] at hl
    obtain ⟨d, hd, rfl⟩ := hl
    obtain ⟨hdDirs, hdRec⟩ := hmemDirs d hd
    unfold chapterEntriesOf
    cases he : extract_chapter_number d.1 with
    | none => exact List.Pairwise.nil
    | some k =>
      have hK : pyInt k < 10000 := by
        have := hbound d hdDirs hdRec
        rwa [dirIntKey_of_some he] at this
      exact process_chapter_pairwise d.1 d.2 (pyInt k) (himgs d hdDirs)
  · rw [List.pairwise_map]
    have hsorted : (canonicalChapters dirs).Pairwise dirIntLe :=
      List.sorted_insertionSort dirIntLe (dirs.filter recognizedDir)
    have hsymm : ∀ {d1 d2 : String × List String},
        (recognizedDir d1 = true → recognizedDir d2 = true →
          dirIntKey d1 ≠ dirIntKey d2) →
        (recognizedDir d2 = true → recognizedDir d1 = true →
          dirIntKey d2 ≠ dirIntKey d1) :=
      fun h h2 h1 => (h h1 h2).symm
    have hne' : (canonicalChapters dirs).Pairwise (fun d1 d2 =>
        recognizedDir d1 = true → recognizedDir d2 = true →
          dirIntKey d1 ≠ dirIntKey d2) :=
      ((List.perm_insertionSort dirIntLe (dirs.filter recognizedDir)).pairwise_iff
        hsymm).mpr (hkeys.filter recognizedDir)
    refine (hsorted.and hne').imp_of_mem ?_
    intro d1 d2 h1mem h2mem hp x hx y hy
    obtain ⟨h1Dirs, h1Rec⟩ := hmemDirs d1 h1mem
    obtain ⟨h2Dirs, h2Rec⟩ := hmemDirs d2 h2mem
    have hlt : dirIntKey d1 < dirIntKey d2 :=
      lt_of_le_of_ne hp.1 (hp.2 h1Rec h2Rec)
    obtain ⟨k1, he1⟩ := Option.isSome_iff_exists.mp h1Rec
    obtain ⟨k2, he2⟩ := Option.isSome_iff_exists.mp h2Rec
    unfold chapterEntriesOf at hx hy
    rw [he1] at hx
    rw [he2] at hy
    unfold process_chapter at hx hy
    rw [List.mem_map] at hx hy
    obtain ⟨pa, _, rfl⟩ := hx
    obtain ⟨pb, _, rfl⟩ := hy
    have hK1 : pyInt k1 < 10000 := by
      have := hbound d1 h1Dirs h1Rec
      rwa [dirIntKey_of_some he1] at this
    have hK2 : pyInt k2 < 10000 := by
      have := hbound d2 h2Dirs h2Rec
      rwa [dirIntKey_of_some he2] at this
    have hklt : pyInt k1 < pyInt k2 := by
      rwa [dirIntKey_of_some he1, dirIntKey_of_some he2] at hlt
    have hgoal : charsLt
        (pad4 (pyInt k1)
          ++ (('_' :: pad3 (pa.1 + 1)) ++ (splitExtChars pa.2.data).2))
        (pad4 (pyInt k2)
          ++ (('_' :: pad3 (pb.1 + 1)) ++ (splitExtChars pb.2.data).2))
        = true :=
      charsLt_append_of_lt
        (by rw [pad4_length hK1, pad4_length hK2]) (pad4_lt hK1 hK2 hklt) _ _
    exact hgoal

/-- C5 amended: provided the recognized chapters' truncated 4-digit
keys are pairwise distinct and below 10000 and no chapter has more than
999 images (otherwise later chapters silently overwrite colliding
generated names, as the counterexample shows), the directory combiner's
archive contains exactly the union of the recognized chapters' images
under the `"<4-digit key>_<3-digit index><ext>"` names in
chapter-then-page order, every unparseable directory contributes
nothing and is reported with a warning, and the run does not fail. -/
theorem C5_amended_combine_exact_union
    (dirs : List (String × List String))
    (hne : dirs ≠ [])
    (hkeys : dirs.Pairwise (fun d1 d2 =>
      recognizedDir d1 = true → recognizedDir d2 = true →
        dirIntKey d1 ≠ dirIntKey d2))
    (hbound : ∀ d ∈ dirs, recognizedDir d = true → dirIntKey d < 10000)
    (himgs : ∀ d ∈ dirs, (d.2.filter isImageFile).length ≤ 999) :
    combine_chapters_ext dirs = .ok (canonicalCombined dirs, warningsOf dirs) ∧
    (warningsOf dirs).Perm (dirs.filterMap unrecognizedName) := by
  have hcanPW := canonicalCombined_pairwise dirs hkeys hbound himgs
  have hFnil : ∀ d, recognizedDir d = false → chapterEntriesOf d = [] :=
    fun d h => chapterEntriesOf_of_unrecognized h
  have hperm1 :
      ((List.insertionSort dirKeyLe dirs).flatMap chapterEntriesOf).Perm
        (canonicalCombined dirs) := by
    have p23 :
        ((List.insertionSort dirKeyLe dirs).flatMap chapterEntriesOf).Perm
          ((dirs.filter recognizedDir).flatMap chapterEntriesOf) := by
      rw [flatMap_filter_eq recognizedDir chapterEntriesOf hFnil dirs,
        List.flatMap_def, List.flatMap_def]
      exact ((List.perm_insertionSort dirKeyLe dirs).map
        chapterEntriesOf).flatten
    have p4 :
        ((dirs.filter recognizedDir).flatMap chapterEntriesOf).Perm
          (canonicalCombined dirs) := by
      unfold canonicalCombined canonicalChapters
      rw [List.flatMap_def, List.flatMap_def]
      exact (((List.perm_insertionSort dirIntLe
        (dirs.filter recognizedDir)).map chapterEntriesOf).flatten).symm
    exact p23.trans p4
  have hcanNodup : ((canonicalCombined dirs).map Prod.fst).Nodup := by
    have hpw : (canonicalCombined dirs).Pairwise
        (fun a b => a.1 ≠ b.1) := by
      refine hcanPW.imp ?_
      intro a b hab hfst
      exact charsLt_ne hab (by rw [hfst])
    exact List.pairwise_map.mpr hpw
  have hnodupNames :
      (((List.insertionSort dirKeyLe dirs).flatMap chapterEntriesOf).map
        Prod.fst).Nodup :=
    ((hperm1.map Prod.fst).symm).nodup hcanNodup
  have hfold :
      ((List.insertionSort dirKeyLe dirs).flatMap chapterEntriesOf).foldl
        upsertFile [] =
      (List.insertionSort dirKeyLe dirs).flatMap chapterEntriesOf := by
    have h := foldl_upsert_eq_append
      ((List.insertionSort dirKeyLe dirs).flatMap chapterEntriesOf) []
      (by simpa using hnodupNames)
    simpa using h
  have hsortEq :
      List.insertionSort byNameLe
        ((List.insertionSort dirKeyLe dirs).flatMap chapterEntriesOf) =
      canonicalCombined dirs := by
    refine name_sorted_unique ?_ ?_ hcanPW
    · exact (List.perm_insertionSort byNameLe _).trans hperm1
    · exact List.sorted_insertionSort byNameLe _
  constructor
  · have hEmpty : (List.insertionSort dirKeyLe dirs).isEmpty = false := by
      cases hsde : List.insertionSort dirKeyLe dirs with
      | nil =>
        have hl : dirs.length = 0 := by
          rw [← (List.perm_insertionSort dirKeyLe dirs).length_eq, hsde]
          rfl
        exact absurd (List.length_eq_zero.mp hl) hne
      | cons x xs => rfl
    simp only [combine_chapters_ext]
    rw [if_neg (by simp [hEmpty])]
    rw [hfold, hsortEq]
  · exact List.Perm.filterMap unrecognizedName
      (List.perm_insertionSort dirKeyLe dirs)

/-- Witness for the amended C5 at a concrete manga directory with two
recognized chapters and one unparseable directory. -/
theorem C5_amended_combine_exact_union_witness :
    combine_chapters_ext
        [("Ch.2", ["b.png", "a.jpg"]), ("misc", ["x.jpg"]),
          ("Ch.1", ["c.jpg"])] =
      .ok (canonicalCombined
          [("Ch.2", ["b.png", "a.jpg"]), ("misc", ["x.jpg"]),
            ("Ch.1", ["c.jpg"])],
        warningsOf
          [("Ch.2", ["b.png", "a.jpg"]), ("misc", ["x.jpg"]),
            ("Ch.1", ["c.jpg"])]) :=
  (C5_amended_combine_exact_union
    [("Ch.2", ["b.png", "a.jpg"]), ("misc", ["x.jpg"]), ("Ch.1", ["c.jpg"])]
    (by decide) (by decide) (by decide) (by decide)).1

